import Mathlib

/-!
Verification development for the reference-field editor in src/src/index.tsx
(a Contentful field app maintaining an ordered collection of entry links).

The stateful React component is shallow-embedded as pure Lean functions:
React state updates become explicit state passing, asynchronous external
calls (CMA fetches, dialogs, entry updates) become oracle parameters that
record the outcome of each call, and the try/catch structure of the source
becomes Except / Bool results.  The random key generator
generateUniqueId (Math.random based) is determinized as a fresh-key
counter threaded through every call site: each call yields the current
counter value and increments it, which models the generator as a supply
of fresh identifiers.
-/

namespace CUR

/-- Link object as stored in the field value; the source fixes
sys.type = Link and sys.linkType = Entry on every link it builds and
checks, so only the entry id is modelled. -/
structure Link where
  id : String
deriving DecidableEq, Repr

/-- LocalItem from the source: a wrapper pairing a link with a local
uniqueId used purely for list identity.  Keys are modelled as naturals
drawn from the fresh-key counter. -/
structure LocalItem where
  uniqueId : Nat
  link : Link
deriving DecidableEq, Repr

/-- The sys part of an Entry as read by the component: id, the content
type id (entry.sys.contentType.sys.id flattened), and the version
counters.  publishedVersion and archivedVersion are optional fields. -/
structure EntrySys where
  id : String
  contentTypeId : String
  version : Nat
  publishedVersion : Option Nat
  archivedVersion : Option Nat
deriving DecidableEq, Repr

/-- Entry as read by the component; only sys is consumed by the logic
modelled here (fields are used for display only). -/
structure Entry where
  sys : EntrySys
deriving DecidableEq, Repr

/-- ContentType descriptor with the three properties the component keeps
(sys.id flattened to id). -/
structure ContentType where
  id : String
  name : String
  displayField : String
deriving DecidableEq, Repr

/-- Truthiness of an optional numeric field in JavaScript: undefined and
0 are falsy, every other number is truthy. -/
def isTruthy : Option Nat → Bool
  | none => false
  | some n => n != 0

/-- getEntryStatus from the source, with the JavaScript truthiness of
the version counters made explicit. -/
def getEntryStatus (e : Entry) : String :=
  if isTruthy e.sys.archivedVersion then "archived"
  else
    match e.sys.publishedVersion with
    | none => "draft"
    | some p =>
      if p ≠ 0 ∧ e.sys.version = p + 1 then "published"
      else if p ≠ 0 ∧ p + 1 < e.sys.version then "changed"
      else "draft"

/-- Status function written from the specification text: archived if an
archive version is set; published if a published version is set and the
current version equals published plus one; changed if a published
version is set and the current version exceeds published plus one;
otherwise draft. -/
def statusOfSpec (e : Entry) : String :=
  if e.sys.archivedVersion.isSome then "archived"
  else
    match e.sys.publishedVersion with
    | none => "draft"
    | some p =>
      if e.sys.version = p + 1 then "published"
      else if p + 1 < e.sys.version then "changed"
      else "draft"

/-- Concrete entry for the status example with version 1 and no
published or archived version. -/
def exDraftEntry : Entry := ⟨⟨"e1", "ct", 1, none, none⟩⟩

/-- Concrete entry for the status example with version 2 and published
version 1. -/
def exPublishedEntry : Entry := ⟨⟨"e2", "ct", 2, some 1, none⟩⟩

/-- Concrete entry for the status example with version 4 and published
version 1. -/
def exChangedEntry : Entry := ⟨⟨"e3", "ct", 4, some 1, none⟩⟩

/-- Concrete entry for the status example with version 1 and archived
version 1. -/
def exArchivedEntry : Entry := ⟨⟨"e4", "ct", 1, none, some 1⟩⟩

/-- Loop body of duplicateUniqueIds from the source: walk the items,
remembering the target ids already seen, and collect the uniqueId of
every item whose target id was seen before it. -/
def dupScan : List LocalItem → List String → List Nat → List Nat
  | [], _, dups => dups
  | item :: rest, seen, dups =>
    if item.link.id ∈ seen then dupScan rest seen (dups ++ [item.uniqueId])
    else dupScan rest (item.link.id :: seen) dups

/-- duplicateUniqueIds from the source: the set of local keys flagged as
duplicates, computed with an empty seen set and an empty result set. -/
def duplicateUniqueIds (items : List LocalItem) : List Nat :=
  dupScan items [] []

/-- Accumulator-free form of the duplicate scan, used to reason about
dupScan by induction. -/
def dupSpecAux : List LocalItem → List String → List Nat
  | [], _ => []
  | item :: rest, seen =>
    if item.link.id ∈ seen then item.uniqueId :: dupSpecAux rest seen
    else dupSpecAux rest (item.link.id :: seen)

/-- The two directions of the onMove action in the source (move to top,
move to bottom). -/
inductive MoveEdge where
  | top
  | bottom
deriving DecidableEq, Repr

/-- onMove from the source: splice the item out at the given index and
unshift it (top) or push it (bottom).  An out-of-range index leaves the
list unchanged (the source never calls it out of range: the menu items
exist only at valid indices). -/
def onMove (items : List LocalItem) (index : Nat) (d : MoveEdge) : List LocalItem :=
  match items[index]? with
  | none => items
  | some moved =>
    match d with
    | .top => moved :: items.eraseIdx index
    | .bottom => items.eraseIdx index ++ [moved]

/-- DropResult as consumed by onDragEnd: a source index and an optional
destination index (absent when the drag was cancelled). -/
structure DropResult where
  sourceIndex : Nat
  destinationIndex : Option Nat
deriving DecidableEq, Repr

/-- onDragEnd from the source: if a destination exists, splice the item
out at the source index and splice it back in at the destination
index. -/
def onDragEnd (items : List LocalItem) (result : DropResult) : List LocalItem :=
  match result.destinationIndex with
  | none => items
  | some dest =>
    match items[result.sourceIndex]? with
    | none => items
    | some moved => (items.eraseIdx result.sourceIndex).insertIdx dest moved

/-- Minting of local items from a list of links, as done by the
onValueChanged handler and by onAddExisting: each link is wrapped with a
freshly drawn key from the counter.  Returns the new items and the
advanced counter. -/
def newLocalItems : List Link → Nat → List LocalItem × Nat
  | [], seed => ([], seed)
  | link :: rest, seed =>
    let p := newLocalItems rest (seed + 1)
    (⟨seed, link⟩ :: p.1, p.2)

/-- The onValueChanged handler from the source (replaceAll in the
specification): the incoming value (or the empty list when it is null)
is mapped to fresh local items, fully replacing the collection. -/
def replaceAll (value : Option (List Link)) (seed : Nat) : List LocalItem × Nat :=
  newLocalItems (value.getD []) seed

/-- Insertion of one keyed element into a lookup map represented as a
function, as done by the forEach loops building entriesMap and
contentTypesMap. -/
def insertByKey {α : Type} (key : α → String) (m : String → Option α) (x : α) :
    String → Option α :=
  fun i => if i = key x then some x else m i

/-- Map built from a list of keyed elements, later elements overwriting
earlier ones with the same key, starting from the empty map. -/
def mapOfList {α : Type} (key : α → String) (xs : List α) : String → Option α :=
  xs.foldl (insertByKey key) (fun _ => none)

/-- The component state touched by fetchData: the entries cache, the
content-types cache and the loading flag. -/
structure FieldState where
  entries : String → Option Entry
  contentTypes : String → Option ContentType
  isLoading : Bool

/-- fetchData from the source as a state transformer.  The two bulk
lookups are oracles: an Except value records whether each call
succeeded and with which items.  An empty link list short-circuits
before touching the loading flag.  On the error path the caches are
left as they were (except an entries map already set before the
content-type fetch failed), the error is only logged (second component
true) and the finally clause clears the loading flag. -/
def fetchData (st : FieldState) (links : List Link)
    (entriesRes : Except Unit (List Entry))
    (ctsRes : Except Unit (List ContentType)) : FieldState × Bool :=
  if links.isEmpty then (st, false)
  else
    match entriesRes with
    | .error _ => ({ st with isLoading := false }, true)
    | .ok es =>
      let entriesMap := mapOfList (fun e => e.sys.id) es
      match ctsRes with
      | .error _ => ({ st with entries := entriesMap, isLoading := false }, true)
      | .ok cts =>
        ({ entries := entriesMap,
           contentTypes := mapOfList (fun c => c.id) cts,
           isLoading := false }, false)

/-- A field value as found on a remote entry: the source tolerates both
a bare link and an array of links (Array.isArray check). -/
inductive FieldVal where
  | one (link : Link)
  | many (links : List Link)
deriving DecidableEq, Repr

/-- Normalization of a field value to a list of links, as done by the
Array.isArray branches in the source. -/
def FieldVal.toLinks : FieldVal → List Link
  | .one l => [l]
  | .many ls => ls

/-- A remote entry as touched by removeLinkFromEntry: its localized
field values, indexed by field id then locale. -/
structure StoredEntry where
  fields : String → String → Option FieldVal

/-- The remote entry store reachable through the CMA, keyed by entry
id. -/
abbrev Store := String → Option StoredEntry

/-- removeLinkFromEntry from the source: fetch the current entry, read
the field value at the given field and locale (absent value: return
false), filter the target id out of its links, and write the entry
back.  The updateFails oracle records whether the CMA update call
throws; on a throw the catch returns false and the remote store is
unchanged (the mutation happened only on the fetched copy). -/
def removeLinkFromEntry (store : Store) (updateFails : String → Bool)
    (sourceEntryId fieldId locale targetEntryId : String) : Bool × Store :=
  match store sourceEntryId with
  | none => (false, store)
  | some entry =>
    match entry.fields fieldId locale with
    | none => (false, store)
    | some fieldValue =>
      let newVal := FieldVal.many
        (fieldValue.toLinks.filter (fun l => l.id ≠ targetEntryId))
      let updated : StoredEntry :=
        ⟨fun f loc =>
          if f = fieldId ∧ loc = locale then some newVal else entry.fields f loc⟩
      if updateFails sourceEntryId then (false, store)
      else (true, fun i => if i = sourceEntryId then some updated else store i)

/-- One conflicting parent as returned by findExistingLinks: the id of
the linking entry, and the field id and locale where the link was
found. -/
structure LinkedFromEntry where
  entryId : String
  fieldId : String
  locale : String
deriving DecidableEq, Repr

/-- Outcome of one openConfirm dialog call: confirmed, declined, or the
call rejected (err). -/
inductive ConfirmRes where
  | yes
  | no
  | err
deriving DecidableEq, Repr

/-- User-visible notifications and the console log raised along
onAddExisting. -/
inductive Notice where
  | warnedAllAlreadyAdded
  | movedSuccess (entryId : String)
  | moveFailed (entryId : String)
  | addedWithDuplicatesSkipped
  | loggedError
deriving DecidableEq, Repr

/-- The candidate filter at the start of onAddExisting: selected ids not
already present among the target ids of the current collection. -/
def candidateIdsNotPresent (items : List LocalItem) (selectedIds : List String) :
    List String :=
  selectedIds.filter (fun id => !((items.map (fun it => it.link.id)).contains id))

/-- The classification loop of onAddExisting: candidates with no
existing linking parent go to the add list, the others are paired with
the first linking parent found and go to the move list, both in
selection order.  The findLinks oracle records the result of
findExistingLinks per candidate (already an empty list when that query
failed, per its own catch). -/
def partitionCands (findLinks : String → List LinkedFromEntry) :
    List String → List String × List (String × LinkedFromEntry)
  | [] => ([], [])
  | id :: rest =>
    let p := partitionCands findLinks rest
    match findLinks id with
    | [] => (id :: p.1, p.2)
    | lf :: _ => (p.1, (id, lf) :: p.2)

/-- The move loop of onAddExisting, threading the pending add list, the
remote store and the notices.  A declined dialog skips the candidate; a
confirmed dialog runs removeLinkFromEntry and appends the candidate to
the add list only when the removal reported success, raising a success
or failure notice; a rejected dialog propagates out of the loop (error
value), carrying the store and notices reached so far. -/
def processMoves (confirm : String → ConfirmRes) (updateFails : String → Bool) :
    List (String × LinkedFromEntry) → List String → Store → List Notice →
    Except (Store × List Notice) (List String × Store × List Notice)
  | [], adds, st, ns => .ok (adds, st, ns)
  | (id, lf) :: rest, adds, st, ns =>
    match confirm id with
    | .err => .error (st, ns)
    | .no => processMoves confirm updateFails rest adds st ns
    | .yes =>
      let r := removeLinkFromEntry st updateFails lf.entryId lf.fieldId lf.locale id
      if r.1 then
        processMoves confirm updateFails rest (adds ++ [id]) r.2 (ns ++ [.movedSuccess id])
      else
        processMoves confirm updateFails rest adds r.2 (ns ++ [.moveFailed id])

/-- Result of one onAddExisting run: the collection, the remote store,
the notices raised, and the advanced key counter. -/
structure AddResult where
  items : List LocalItem
  store : Store
  notices : List Notice
  seed : Nat

/-- onAddExisting from the source.  selected is the picker result (none
when the dialog was dismissed).  Candidates already in the collection
are filtered out; if that removes every candidate of a nonempty
selection, a warning is raised and nothing changes.  Remaining
candidates are classified by partitionCands, moves are resolved by
processMoves, and the surviving additions are appended in one mutation
with freshly minted keys.  A rejected confirm dialog falls through to
the function-level catch: the error is logged and nothing is appended.
The duplicates-skipped notice fires only when fewer entries were added
than selected and no move was attempted. -/
def onAddExisting (items : List LocalItem) (seed : Nat)
    (selected : Option (List String))
    (findLinks : String → List LinkedFromEntry)
    (confirm : String → ConfirmRes)
    (store : Store) (updateFails : String → Bool) : AddResult :=
  match selected with
  | none => ⟨items, store, [], seed⟩
  | some selectedIds =>
    let newEntries := candidateIdsNotPresent items selectedIds
    if newEntries.isEmpty && !selectedIds.isEmpty then
      ⟨items, store, [.warnedAllAlreadyAdded], seed⟩
    else
      let p := partitionCands findLinks newEntries
      match processMoves confirm updateFails p.2 p.1 store [] with
      | .error (st, ns) => ⟨items, st, ns ++ [.loggedError], seed⟩
      | .ok (adds, st, ns) =>
        if adds.isEmpty then ⟨items, st, ns, seed⟩
        else
          let minted := newLocalItems (adds.map Link.mk) seed
          let ns2 := if adds.length < selectedIds.length && p.2.isEmpty then
            ns ++ [.addedWithDuplicatesSkipped] else ns
          ⟨items ++ minted.1, st, ns2, minted.2⟩

/-- Concrete field state used to instantiate the fetchData theorems. -/
def exState : FieldState :=
  ⟨fun _ => some exDraftEntry, fun _ => none, true⟩

/-- Concrete collection with a repeated target id, used to instantiate
the duplicate-detector theorem. -/
def cexDupItems : List LocalItem :=
  [⟨0, ⟨"x"⟩⟩, ⟨1, ⟨"y"⟩⟩, ⟨2, ⟨"x"⟩⟩]

/-- Oracle for concrete runs: candidate B has one existing linking
parent P at field f, locale en; every other candidate has none. -/
def cexFindLinks : String → List LinkedFromEntry :=
  fun id => if id = "B" then [⟨"P", "f", "en"⟩] else []

/-- Confirm oracle where the dialog for candidate B rejects and every
other dialog is declined. -/
def cexConfirmErr : String → ConfirmRes :=
  fun id => if id = "B" then .err else .no

/-- Confirm oracle declining every dialog. -/
def cexConfirmNo : String → ConfirmRes := fun _ => .no

/-- Confirm oracle accepting every dialog. -/
def cexConfirmYes : String → ConfirmRes := fun _ => .yes

/-- Remote store with no entries. -/
def emptyStore : Store := fun _ => none

/-- Oracle under which no CMA update call fails. -/
def noUpdateFails : String → Bool := fun _ => false

/-- Oracle under which every CMA update call fails. -/
def allUpdateFails : String → Bool := fun _ => true

/-- Concrete parent entry holding links to c and d at field f, locale
en. -/
def cexParent : StoredEntry :=
  ⟨fun f loc => if f = "f" ∧ loc = "en" then some (.many [⟨"c"⟩, ⟨"d"⟩]) else none⟩

/-- Store containing only the parent P. -/
def cexStore : Store := fun i => if i = "P" then some cexParent else none

/-- findLinks oracle for the move scenario: candidate c is linked from
parent P at field f, locale en. -/
def cexFindC : String → List LinkedFromEntry :=
  fun id => if id = "c" then [⟨"P", "f", "en"⟩] else []

/-! Helper lemmas. -/

theorem eraseIdx_append_last {α : Type} (l : List α) (x : α) :
    (l ++ [x]).eraseIdx l.length = l := by
  induction l with
  | nil => rfl
  | cons a t ih => simpa [List.eraseIdx] using ih

theorem insertIdx_eraseIdx_self {α : Type} :
    ∀ (l : List α) (i : Nat) (h : i < l.length),
      (l.eraseIdx i).insertIdx i (l.get ⟨i, h⟩) = l
  | _ :: _, 0, _ => rfl
  | a :: t, i + 1, h => by
    have ih := insertIdx_eraseIdx_self t i (by simpa using h)
    simpa [List.eraseIdx] using ih

theorem getElem?_insertIdx_self {α : Type} (l : List α) (x : α) (n : Nat)
    (hn : n ≤ l.length) : (l.insertIdx n x)[n]? = some x := by
  have hlen : (l.insertIdx n x).length = l.length + 1 := List.length_insertIdx n l hn
  have hlt : n < (l.insertIdx n x).length := by omega
  rw [List.getElem?_eq_getElem hlt]
  exact congrArg some (List.getElem_insertIdx_self l x n hn)

theorem newLocalItems_map_link : ∀ (ls : List Link) (s : Nat),
    ((newLocalItems ls s).1.map LocalItem.link) = ls
  | [], _ => rfl
  | l :: rest, s => by
    simp [newLocalItems, newLocalItems_map_link rest (s + 1)]

theorem newLocalItems_map_key : ∀ (ls : List Link) (s : Nat),
    ((newLocalItems ls s).1.map LocalItem.uniqueId) = List.range' s ls.length
  | [], _ => rfl
  | l :: rest, s => by
    simp [newLocalItems, newLocalItems_map_key rest (s + 1), List.range'_succ]

theorem newLocalItems_map_linkid (ls : List String) (s : Nat) :
    ((newLocalItems (ls.map Link.mk) s).1.map (fun it => it.link.id)) = ls := by
  have h := newLocalItems_map_link (ls.map Link.mk) s
  have h2 : ((newLocalItems (ls.map Link.mk) s).1.map (fun it => it.link.id)) =
      ((newLocalItems (ls.map Link.mk) s).1.map LocalItem.link).map Link.id := by
    rw [List.map_map]; rfl
  rw [h2, h, List.map_map]
  exact List.map_id ls

/-! Theorems for the claims. -/

/-- Claim C3: getEntryStatus agrees with the status function written
from the specification wording on every entry whose version counters
are never the number 0 (content-store versions start at 1), and the
four concrete examples evaluate to draft, published, changed and
archived as stated. -/
theorem getEntryStatus_matches_spec (e : Entry)
    (ha : e.sys.archivedVersion ≠ some 0) (hp : e.sys.publishedVersion ≠ some 0) :
    getEntryStatus e = statusOfSpec e ∧
    getEntryStatus exDraftEntry = "draft" ∧
    getEntryStatus exPublishedEntry = "published" ∧
    getEntryStatus exChangedEntry = "changed" ∧
    getEntryStatus exArchivedEntry = "archived" := by
  refine ⟨?_, by decide, by decide, by decide, by decide⟩
  rcases e with ⟨⟨eid, ct, v, pv, av⟩⟩
  cases av with
  | some a =>
    have hane : a ≠ 0 := fun h0 => ha (by simp [h0])
    simp [getEntryStatus, statusOfSpec, isTruthy, hane]
  | none =>
    cases pv with
    | none => simp [getEntryStatus, statusOfSpec, isTruthy]
    | some p =>
      have hpne : p ≠ 0 := fun h0 => hp (by simp [h0])
      simp [getEntryStatus, statusOfSpec, isTruthy, hpne]

/-- Witness for C3 at the concrete published example. -/
theorem getEntryStatus_matches_spec_witness :
    exPublishedEntry.sys.archivedVersion ≠ some 0 ∧
    exPublishedEntry.sys.publishedVersion ≠ some 0 ∧
    (getEntryStatus exPublishedEntry = statusOfSpec exPublishedEntry ∧
     getEntryStatus exDraftEntry = "draft" ∧
     getEntryStatus exPublishedEntry = "published" ∧
     getEntryStatus exChangedEntry = "changed" ∧
     getEntryStatus exArchivedEntry = "archived") :=
  ⟨by decide, by decide,
   getEntryStatus_matches_spec exPublishedEntry (by decide) (by decide)⟩

/-- Claim C5: the handler for an externally-originated field value
change replaces the collection with items whose links are exactly the
incoming value in order, carrying freshly minted pairwise-distinct
local keys. -/
theorem replaceAll_fresh_and_ordered (value : Option (List Link)) (seed : Nat) :
    ((replaceAll value seed).1.map LocalItem.link) = value.getD [] ∧
    ((replaceAll value seed).1.map LocalItem.uniqueId).Nodup := by
  constructor
  · exact newLocalItems_map_link (value.getD []) seed
  · rw [replaceAll, newLocalItems_map_key]
    exact List.nodup_range' seed (value.getD []).length

/-- Claim C8: onMove with an in-bounds index keeps the length, places
the item previously at that index at position 0 (top) or n-1 (bottom),
and the remaining items keep their original relative order (erasing the
new position yields exactly the original list with the index erased). -/
theorem onMove_places_at_edge (items : List LocalItem) (i : Nat)
    (h : i < items.length) :
    (onMove items i .top).length = items.length ∧
    (onMove items i .top)[0]? = some (items.get ⟨i, h⟩) ∧
    (onMove items i .top).eraseIdx 0 = items.eraseIdx i ∧
    (onMove items i .bottom).length = items.length ∧
    (onMove items i .bottom)[items.length - 1]? = some (items.get ⟨i, h⟩) ∧
    (onMove items i .bottom).eraseIdx (items.length - 1) = items.eraseIdx i := by
  have hsome : items[i]? = some (items.get ⟨i, h⟩) := List.getElem?_eq_getElem h
  have hlen : (items.eraseIdx i).length = items.length - 1 := by
    simp [List.length_eraseIdx, h]
  have hpos : 1 ≤ items.length := by omega
  refine ⟨?_, ?_, ?_, ?_, ?_, ?_⟩
  · simp [onMove, hsome, hlen]; omega
  · simp [onMove, hsome]
  · simp [onMove, hsome]
  · simp [onMove, hsome, hlen]; omega
  · rw [onMove, hsome]
    simp only
    rw [List.getElem?_append_right (by omega), hlen]
    simp
  · rw [onMove, hsome]
    simp only
    rw [← hlen, eraseIdx_append_last]

/-- Witness for C8 on a three-element collection at index 1. -/
theorem onMove_places_at_edge_witness :
    1 < cexDupItems.length ∧
    (onMove cexDupItems 1 .top).length = cexDupItems.length ∧
    (onMove cexDupItems 1 .top)[0]? = some (cexDupItems.get ⟨1, by decide⟩) ∧
    (onMove cexDupItems 1 .top).eraseIdx 0 = cexDupItems.eraseIdx 1 ∧
    (onMove cexDupItems 1 .bottom).length = cexDupItems.length ∧
    (onMove cexDupItems 1 .bottom)[cexDupItems.length - 1]? =
      some (cexDupItems.get ⟨1, by decide⟩) ∧
    (onMove cexDupItems 1 .bottom).eraseIdx (cexDupItems.length - 1) =
      cexDupItems.eraseIdx 1 :=
  ⟨by decide, onMove_places_at_edge cexDupItems 1 (by decide)⟩

/-- Claim C7: onDragEnd is remove-then-insert, and for in-bounds
indices applying it once and then with the two indices swapped restores
the original collection. -/
theorem onDragEnd_remove_insert_involutive (items : List LocalItem) (f t : Nat)
    (hf : f < items.length) (ht : t < items.length) :
    onDragEnd items ⟨f, some t⟩ =
      (items.eraseIdx f).insertIdx t (items.get ⟨f, hf⟩) ∧
    onDragEnd (onDragEnd items ⟨f, some t⟩) ⟨t, some f⟩ = items := by
  have hx : items[f]? = some (items.get ⟨f, hf⟩) := List.getElem?_eq_getElem hf
  have h1 : onDragEnd items ⟨f, some t⟩ =
      (items.eraseIdx f).insertIdx t (items.get ⟨f, hf⟩) := by
    simp [onDragEnd, hx]
  refine ⟨h1, ?_⟩
  have herase : (items.eraseIdx f).length = items.length - 1 := by
    simp [List.length_eraseIdx, hf]
  have ht2 : t ≤ (items.eraseIdx f).length := by omega
  have hMt : ((items.eraseIdx f).insertIdx t (items.get ⟨f, hf⟩))[t]? =
      some (items.get ⟨f, hf⟩) :=
    getElem?_insertIdx_self _ _ t ht2
  rw [h1, onDragEnd]
  simp only [hMt]
  rw [List.eraseIdx_insertIdx]
  exact insertIdx_eraseIdx_self items f hf

/-- Witness for C7 on a three-element collection with indices 0 and 2. -/
theorem onDragEnd_remove_insert_involutive_witness :
    0 < cexDupItems.length ∧ 2 < cexDupItems.length ∧
    (onDragEnd cexDupItems ⟨0, some 2⟩ =
      (cexDupItems.eraseIdx 0).insertIdx 2 (cexDupItems.get ⟨0, by decide⟩) ∧
     onDragEnd (onDragEnd cexDupItems ⟨0, some 2⟩) ⟨2, some 0⟩ = cexDupItems) :=
  ⟨by decide, by decide,
   onDragEnd_remove_insert_involutive cexDupItems 0 2 (by decide) (by decide)⟩

theorem foldl_insertByKey_not_mem {α : Type} (key : α → String) :
    ∀ (xs : List α) (m : String → Option α) (i : String),
      (∀ x ∈ xs, key x ≠ i) → xs.foldl (insertByKey key) m i = m i
  | [], _, _, _ => rfl
  | x :: rest, m, i, h => by
    have hx : key x ≠ i := h x (by simp)
    have ih := foldl_insertByKey_not_mem key rest (insertByKey key m x) i
      (fun y hy => h y (by simp [hy]))
    rw [List.foldl_cons, ih, insertByKey, if_neg (Ne.symm hx)]

theorem foldl_insertByKey_mem {α : Type} (key : α → String) :
    ∀ (xs : List α) (m : String → Option α) (i : String),
      (∃ x ∈ xs, key x = i) →
      ∃ y, y ∈ xs ∧ key y = i ∧ xs.foldl (insertByKey key) m i = some y
  | [], _, _, h => absurd h (by simp)
  | x :: rest, m, i, h => by
    by_cases hr : ∃ y ∈ rest, key y = i
    · obtain ⟨y, hy, hky, heq⟩ := foldl_insertByKey_mem key rest (insertByKey key m x) i hr
      exact ⟨y, by simp [hy], hky, by simpa using heq⟩
    · have hx : key x = i := by
        rcases h with ⟨z, hz, hkz⟩
        rcases List.mem_cons.mp hz with rfl | hz2
        · exact hkz
        · exact absurd ⟨z, hz2, hkz⟩ hr
      have hnone : ∀ y ∈ rest, key y ≠ i := fun y hy hkey => hr ⟨y, hy, hkey⟩
      have hfold := foldl_insertByKey_not_mem key rest (insertByKey key m x) i hnone
      refine ⟨x, by simp, hx, ?_⟩
      rw [List.foldl_cons, hfold, insertByKey, if_pos hx.symm]

/-- Claim C9: for a nonempty id batch, a failed batch fetch is only
logged (second component true, the function returns normally), both
caches are left untouched, and the loading flag is cleared; the loading
flag is cleared on every outcome, success or failure. -/
theorem fetchData_failure_policy (st : FieldState) (links : List Link)
    (ctsRes : Except Unit (List ContentType)) (h : links ≠ []) :
    fetchData st links (.error ()) ctsRes = ({ st with isLoading := false }, true) ∧
    ∀ r1 r2, (fetchData st links r1 r2).1.isLoading = false := by
  have hne : links.isEmpty = false := by simp [List.isEmpty_iff, h]
  constructor
  · simp [fetchData, hne]
  · intro r1 r2
    cases r1 <;> cases r2 <;> simp [fetchData, hne]

/-- Witness for C9 at a concrete state whose entries cache is populated
and whose loading flag is set. -/
theorem fetchData_failure_policy_witness :
    [Link.mk "a"] ≠ ([] : List Link) ∧
    fetchData exState [Link.mk "a"] (.error ()) (.ok []) =
      ({ exState with isLoading := false }, true) :=
  ⟨by decide,
   (fetchData_failure_policy exState [Link.mk "a"] (.ok []) (by decide)).1⟩

/-- Claim C10: after a fully successful fetch over a nonempty batch,
the entries cache and the content-type cache are wholly replaced: each
equals the map built from the fetched items alone, every fetched id is
mapped to a fetched record with that id, and every id not present in
the new result is absent from the cache, whatever was cached before. -/
theorem fetchData_success_replaces (st : FieldState) (links : List Link)
    (es : List Entry) (cts : List ContentType) (h : links ≠ []) :
    (fetchData st links (.ok es) (.ok cts)).1.entries =
      mapOfList (fun e => e.sys.id) es ∧
    (fetchData st links (.ok es) (.ok cts)).1.contentTypes =
      mapOfList (fun c => c.id) cts ∧
    (∀ e ∈ es, ∃ e2, e2 ∈ es ∧ e2.sys.id = e.sys.id ∧
      (fetchData st links (.ok es) (.ok cts)).1.entries e.sys.id = some e2) ∧
    (∀ i, (∀ e ∈ es, e.sys.id ≠ i) →
      (fetchData st links (.ok es) (.ok cts)).1.entries i = none) ∧
    (∀ i, (∀ c ∈ cts, c.id ≠ i) →
      (fetchData st links (.ok es) (.ok cts)).1.contentTypes i = none) := by
  have hne : links.isEmpty = false := by simp [List.isEmpty_iff, h]
  have hres : (fetchData st links (.ok es) (.ok cts)).1.entries =
      mapOfList (fun e => e.sys.id) es := by simp [fetchData, hne]
  have hres2 : (fetchData st links (.ok es) (.ok cts)).1.contentTypes =
      mapOfList (fun c => c.id) cts := by simp [fetchData, hne]
  refine ⟨hres, hres2, ?_, ?_, ?_⟩
  · intro e he
    obtain ⟨y, hy, hky, heq⟩ :=
      foldl_insertByKey_mem (fun e2 => e2.sys.id) es (fun _ => none) e.sys.id
        ⟨e, he, rfl⟩
    exact ⟨y, hy, hky, by rw [hres]; exact heq⟩
  · intro i hi
    rw [hres]
    exact foldl_insertByKey_not_mem (fun e2 => e2.sys.id) es (fun _ => none) i hi
  · intro i hi
    rw [hres2]
    exact foldl_insertByKey_not_mem (fun c => c.id) cts (fun _ => none) i hi

/-- Witness for C10 at a concrete previously-populated state, a
one-entry result and an empty content-type result. -/
theorem fetchData_success_replaces_witness :
    [Link.mk "a"] ≠ ([] : List Link) ∧
    (fetchData exState [Link.mk "a"] (.ok [exPublishedEntry]) (.ok [])).1.entries =
      mapOfList (fun e => e.sys.id) [exPublishedEntry] ∧
    (fetchData exState [Link.mk "a"] (.ok [exPublishedEntry]) (.ok [])).1.contentTypes =
      mapOfList (fun c => c.id) ([] : List ContentType) :=
  ⟨by decide,
   (fetchData_success_replaces exState [Link.mk "a"] [exPublishedEntry] [] (by decide)).1,
   (fetchData_success_replaces exState [Link.mk "a"] [exPublishedEntry] [] (by decide)).2.1⟩

theorem dupScan_eq (items : List LocalItem) : ∀ (seen : List String) (dups : List Nat),
    dupScan items seen dups = dups ++ dupSpecAux items seen := by
  induction items with
  | nil => intro seen dups; simp [dupScan, dupSpecAux]
  | cons it rest ih =>
    intro seen dups
    by_cases h : it.link.id ∈ seen
    · simp [dupScan, dupSpecAux, h, ih]
    · simp [dupScan, dupSpecAux, h, ih]

theorem dupSpecAux_sub (items : List LocalItem) : ∀ (seen : List String) (k : Nat),
    k ∈ dupSpecAux items seen → k ∈ items.map LocalItem.uniqueId := by
  induction items with
  | nil => intro seen k hk; simp [dupSpecAux] at hk
  | cons it rest ih =>
    intro seen k hk
    by_cases h : it.link.id ∈ seen
    · rw [dupSpecAux, if_pos h] at hk
      rcases List.mem_cons.mp hk with rfl | hk2
      · simp
      · simp [ih seen k hk2]
    · rw [dupSpecAux, if_neg h] at hk
      simp [ih _ k hk]

theorem dupSpecAux_mem_iff (items : List LocalItem) : ∀ (seen : List String),
    (items.map LocalItem.uniqueId).Nodup → ∀ (i : Nat) (hi : i < items.length),
    ((items.get ⟨i, hi⟩).uniqueId ∈ dupSpecAux items seen ↔
      (items.get ⟨i, hi⟩).link.id ∈ seen ∨
      (items.get ⟨i, hi⟩).link.id ∈ (items.take i).map (fun it => it.link.id)) := by
  induction items with
  | nil => intro seen _ i hi; simp at hi
  | cons it rest ih =>
    intro seen hnd i hi
    rw [List.map_cons, List.nodup_cons] at hnd
    obtain ⟨hnm, hnd2⟩ := hnd
    cases i with
    | zero =>
      by_cases h : it.link.id ∈ seen
      · simp [dupSpecAux, h]
      · simp only [List.get, List.take_zero, List.map_nil, List.not_mem_nil, or_false]
        simp only [dupSpecAux, if_neg h, h, iff_false]
        exact fun hmem => hnm (dupSpecAux_sub rest _ _ hmem)
    | succ n =>
      have hi2 : n < rest.length := by simpa using hi
      have hget : (it :: rest).get ⟨n + 1, hi⟩ = rest.get ⟨n, hi2⟩ := rfl
      have hmem : (rest.get ⟨n, hi2⟩).uniqueId ∈ rest.map LocalItem.uniqueId :=
        List.mem_map_of_mem LocalItem.uniqueId (rest.get_mem n hi2)
      have hkne : (rest.get ⟨n, hi2⟩).uniqueId ≠ it.uniqueId := by
        intro he; exact hnm (he ▸ hmem)
      by_cases h : it.link.id ∈ seen
      · have ihh := ih seen hnd2 n hi2
        rw [hget, dupSpecAux, if_pos h]
        simp only [List.take_succ_cons, List.map_cons, List.mem_cons, hkne, false_or]
        rw [ihh]
        constructor
        · rintro (hs | hp)
          · exact Or.inl hs
          · exact Or.inr (Or.inr hp)
        · rintro (hs | he | hp)
          · exact Or.inl hs
          · exact Or.inl (he ▸ h)
          · exact Or.inr hp
      · have ihh := ih (it.link.id :: seen) hnd2 n hi2
        rw [hget, dupSpecAux, if_neg h]
        simp only [List.take_succ_cons, List.map_cons, List.mem_cons]
        rw [ihh]
        simp only [List.mem_cons]
        constructor
        · rintro ((he | hs) | hp)
          · exact Or.inr (Or.inl he)
          · exact Or.inl hs
          · exact Or.inr (Or.inr hp)
        · rintro (hs | he | hp)
          · exact Or.inl (Or.inr hs)
          · exact Or.inl (Or.inl he)
          · exact Or.inr hp

/-- Claim C2: on every collection with pairwise-distinct local keys,
duplicateUniqueIds flags the key of the item at position i exactly when
its target id already occurs among the items before position i, so the
2nd and later occurrences of a repeated target id are flagged and first
occurrences never are. -/
theorem duplicateDetector_flags_repeats (items : List LocalItem)
    (hnd : (items.map LocalItem.uniqueId).Nodup) (i : Nat) (hi : i < items.length) :
    ((items.get ⟨i, hi⟩).uniqueId ∈ duplicateUniqueIds items ↔
      (items.get ⟨i, hi⟩).link.id ∈ (items.take i).map (fun it => it.link.id)) := by
  have h := dupSpecAux_mem_iff items [] hnd i hi
  rw [duplicateUniqueIds, dupScan_eq]
  simpa using h

/-- Witness for C2 on a collection where the target id x occurs at
positions 0 and 2: the item at position 2 is flagged. -/
theorem duplicateDetector_flags_repeats_witness :
    (cexDupItems.map LocalItem.uniqueId).Nodup ∧ 2 < cexDupItems.length ∧
    ((cexDupItems.get ⟨2, by decide⟩).uniqueId ∈ duplicateUniqueIds cexDupItems ↔
      (cexDupItems.get ⟨2, by decide⟩).link.id ∈
        (cexDupItems.take 2).map (fun it => it.link.id)) :=
  ⟨by decide, by decide,
   duplicateDetector_flags_repeats cexDupItems (by decide) 2 (by decide)⟩

theorem partitionCands_fst_sub (findLinks : String → List LinkedFromEntry) :
    ∀ (ids : List String) (x : String), x ∈ (partitionCands findLinks ids).1 → x ∈ ids := by
  intro ids
  induction ids with
  | nil => intro x hx; simp [partitionCands] at hx
  | cons id rest ih =>
    intro x hx
    cases hfl : findLinks id with
    | nil =>
      simp only [partitionCands, hfl] at hx
      rcases List.mem_cons.mp hx with rfl | h2
      · exact List.mem_cons_self x rest
      · exact List.mem_cons_of_mem id (ih x h2)
    | cons lf lfs =>
      simp only [partitionCands, hfl] at hx
      exact List.mem_cons_of_mem id (ih x hx)

theorem partitionCands_snd_sub (findLinks : String → List LinkedFromEntry) :
    ∀ (ids : List String) (c : String) (lf : LinkedFromEntry),
      (c, lf) ∈ (partitionCands findLinks ids).2 → c ∈ ids := by
  intro ids
  induction ids with
  | nil => intro c lf hx; simp [partitionCands] at hx
  | cons id rest ih =>
    intro c lf hx
    cases hfl : findLinks id with
    | nil =>
      simp only [partitionCands, hfl] at hx
      exact List.mem_cons_of_mem id (ih c lf hx)
    | cons lf0 lfs =>
      simp only [partitionCands, hfl] at hx
      rcases List.mem_cons.mp hx with heq | h2
      · rw [Prod.mk.injEq] at heq
        exact heq.1 ▸ List.mem_cons_self id rest
      · exact List.mem_cons_of_mem id (ih c lf h2)

theorem processMoves_ok_adds (confirm : String → ConfirmRes) (updateFails : String → Bool) :
    ∀ (moves : List (String × LinkedFromEntry)) (adds : List String) (st : Store)
      (ns : List Notice) (adds2 : List String) (st2 : Store) (ns2 : List Notice),
      processMoves confirm updateFails moves adds st ns = .ok (adds2, st2, ns2) →
      ∀ x ∈ adds2, x ∈ adds ∨ x ∈ moves.map Prod.fst := by
  intro moves
  induction moves with
  | nil =>
    intro adds st ns adds2 st2 ns2 heq x hx
    simp only [processMoves, Except.ok.injEq, Prod.mk.injEq] at heq
    exact Or.inl (heq.1 ▸ hx)
  | cons ml rest ih =>
    obtain ⟨id, lf⟩ := ml
    intro adds st ns adds2 st2 ns2 heq x hx
    cases hc : confirm id with
    | err => simp [processMoves, hc] at heq
    | no =>
      simp only [processMoves, hc] at heq
      rcases ih adds st ns adds2 st2 ns2 heq x hx with h | h
      · exact Or.inl h
      · exact Or.inr (by simp [h])
    | yes =>
      simp only [processMoves, hc] at heq
      by_cases hr :
          (removeLinkFromEntry st updateFails lf.entryId lf.fieldId lf.locale id).1 = true
      · rw [if_pos hr] at heq
        rcases ih _ _ _ _ _ _ heq x hx with h | h
        · rcases List.mem_append.mp h with h2 | h2
          · exact Or.inl h2
          · right; simp only [List.mem_singleton] at h2; simp [h2]
        · exact Or.inr (by simp [h])
      · rw [if_neg hr] at heq
        rcases ih _ _ _ _ _ _ heq x hx with h | h
        · exact Or.inl h
        · exact Or.inr (by simp [h])

theorem onAddExisting_items_shape (items : List LocalItem) (seed : Nat)
    (selectedIds : List String) (findLinks : String → List LinkedFromEntry)
    (confirm : String → ConfirmRes) (store : Store) (updateFails : String → Bool) :
    (onAddExisting items seed (some selectedIds) findLinks confirm store updateFails).items
      = items ∨
    ∃ adds : List String,
      (∀ x ∈ adds, x ∈ candidateIdsNotPresent items selectedIds) ∧
      (onAddExisting items seed (some selectedIds) findLinks confirm store updateFails).items
        = items ++ (newLocalItems (adds.map Link.mk) seed).1 := by
  simp only [onAddExisting]
  split
  · left; rfl
  · split
    · left; rfl
    · next adds st ns heq =>
      split
      · left; rfl
      · right
        refine ⟨adds, ?_, rfl⟩
        intro x hx
        rcases processMoves_ok_adds confirm updateFails _ _ _ _ _ _ _ heq x hx with h | h
        · exact partitionCands_fst_sub findLinks _ x h
        · obtain ⟨⟨c, lf⟩, hmem, hfst⟩ := List.mem_map.mp h
          exact hfst ▸ partitionCands_snd_sub findLinks _ c lf hmem

/-- Claim C6: a candidate whose target id is already present in the
collection is filtered out and never added again (the multiplicity of
every already-present target id is unchanged by onAddExisting), and a
nonempty selection consisting entirely of already-present candidates
raises the warning and leaves the collection and the store untouched. -/
theorem onAddExisting_filters_present (items : List LocalItem) (seed : Nat)
    (selectedIds : List String) (findLinks : String → List LinkedFromEntry)
    (confirm : String → ConfirmRes) (store : Store) (updateFails : String → Bool)
    (tid : String) (htid : tid ∈ items.map (fun it => it.link.id)) :
    ((onAddExisting items seed (some selectedIds) findLinks confirm store
        updateFails).items.map (fun it => it.link.id)).count tid =
      (items.map (fun it => it.link.id)).count tid ∧
    ((selectedIds ≠ [] ∧ ∀ s ∈ selectedIds, s ∈ items.map (fun it => it.link.id)) →
      (onAddExisting items seed (some selectedIds) findLinks confirm store
        updateFails).items = items ∧
      (onAddExisting items seed (some selectedIds) findLinks confirm store
        updateFails).store = store ∧
      Notice.warnedAllAlreadyAdded ∈ (onAddExisting items seed (some selectedIds)
        findLinks confirm store updateFails).notices) := by
  constructor
  · rcases onAddExisting_items_shape items seed selectedIds findLinks confirm store
      updateFails with heq | ⟨adds, hsub, heq⟩
    · rw [heq]
    · rw [heq, List.map_append, List.count_append, newLocalItems_map_linkid]
      have hnotin : tid ∉ adds := by
        intro hmem
        have hx := hsub tid hmem
        rw [candidateIdsNotPresent, List.mem_filter] at hx
        have hx2 := hx.2
        simp only [Bool.not_eq_true'] at hx2
        have hx3 : tid ∉ items.map (fun it => it.link.id) := by simpa using hx2
        exact hx3 htid
      rw [List.count_eq_zero.mpr hnotin, Nat.add_zero]
  · rintro ⟨hne, hall⟩
    have hempty : candidateIdsNotPresent items selectedIds = [] := by
      rw [candidateIdsNotPresent, List.filter_eq_nil_iff]
      intro a ha
      simp [hall a ha]
    have hse : selectedIds.isEmpty = false := by simp [List.isEmpty_iff, hne]
    refine ⟨?_, ?_, ?_⟩ <;> simp [onAddExisting, hempty, hse]

/-- Witness for C6: selecting only the already-present target x leaves
the three-item collection unchanged, keeps the multiplicity of x, keeps
the store, and raises the warning. -/
theorem onAddExisting_filters_present_witness :
    "x" ∈ cexDupItems.map (fun it => it.link.id) ∧
    ((onAddExisting cexDupItems 5 (some ["x"]) cexFindLinks cexConfirmNo emptyStore
        noUpdateFails).items.map (fun it => it.link.id)).count "x" =
      (cexDupItems.map (fun it => it.link.id)).count "x" ∧
    (onAddExisting cexDupItems 5 (some ["x"]) cexFindLinks cexConfirmNo emptyStore
        noUpdateFails).items = cexDupItems ∧
    (onAddExisting cexDupItems 5 (some ["x"]) cexFindLinks cexConfirmNo emptyStore
        noUpdateFails).store = emptyStore ∧
    Notice.warnedAllAlreadyAdded ∈ (onAddExisting cexDupItems 5 (some ["x"])
        cexFindLinks cexConfirmNo emptyStore noUpdateFails).notices :=
  ⟨by decide,
   (onAddExisting_filters_present cexDupItems 5 ["x"] cexFindLinks cexConfirmNo
      emptyStore noUpdateFails "x" (by decide)).1,
   (onAddExisting_filters_present cexDupItems 5 ["x"] cexFindLinks cexConfirmNo
      emptyStore noUpdateFails "x" (by decide)).2 ⟨by decide, by decide⟩⟩

/-- Claim C1: for a selected candidate c already referenced by parent
lf.entryId through field lf.fieldId at locale lf.locale, with the move
confirmed: if the parent write succeeds, c is appended to the
collection and the parent field value at that field and locale becomes
the old value with c filtered out (all other fields, locales and
entries untouched), with a success notice; if the write fails, c is
dropped (the collection is unchanged), the store is unchanged, and an
error notice is raised. -/
theorem onAddExisting_move_confirmed (items : List LocalItem) (seed : Nat)
    (c : String) (lf : LinkedFromEntry) (restLF : List LinkedFromEntry)
    (findLinks : String → List LinkedFromEntry) (confirm : String → ConfirmRes)
    (store : Store) (updateFails : String → Bool) (pe : StoredEntry) (v : FieldVal)
    (hc : c ∉ items.map (fun it => it.link.id))
    (hfind : findLinks c = lf :: restLF)
    (hconf : confirm c = .yes)
    (hstore : store lf.entryId = some pe)
    (hfield : pe.fields lf.fieldId lf.locale = some v) :
    (updateFails lf.entryId = false →
      ((onAddExisting items seed (some [c]) findLinks confirm store
          updateFails).items.map (fun it => it.link.id)) =
        (items.map (fun it => it.link.id)) ++ [c] ∧
      ∃ pe2, (onAddExisting items seed (some [c]) findLinks confirm store
          updateFails).store lf.entryId = some pe2 ∧
        pe2.fields lf.fieldId lf.locale =
          some (FieldVal.many (v.toLinks.filter (fun l => l.id ≠ c))) ∧
        (∀ l ∈ v.toLinks.filter (fun l2 => l2.id ≠ c), l.id ≠ c) ∧
        (∀ f2 loc2, ¬(f2 = lf.fieldId ∧ loc2 = lf.locale) →
          pe2.fields f2 loc2 = pe.fields f2 loc2) ∧
        (∀ eid, eid ≠ lf.entryId →
          (onAddExisting items seed (some [c]) findLinks confirm store
            updateFails).store eid = store eid) ∧
        Notice.movedSuccess c ∈ (onAddExisting items seed (some [c]) findLinks confirm
          store updateFails).notices) ∧
    (updateFails lf.entryId = true →
      (onAddExisting items seed (some [c]) findLinks confirm store
        updateFails).items = items ∧
      (onAddExisting items seed (some [c]) findLinks confirm store
        updateFails).store = store ∧
      Notice.moveFailed c ∈ (onAddExisting items seed (some [c]) findLinks confirm
        store updateFails).notices) := by
  have hcontains : ((items.map (fun it => it.link.id)).contains c) = false := by
    simpa using hc
  have hnew : candidateIdsNotPresent items [c] = [c] := by
    simp [candidateIdsNotPresent, hcontains]
    intro x hx heq
    exact hc (heq ▸ List.mem_map_of_mem (fun it => it.link.id) hx)
  have hpart : partitionCands findLinks [c] = ([], [(c, lf)]) := by
    simp [partitionCands, hfind]
  constructor
  · intro hupd
    set newVal := FieldVal.many (v.toLinks.filter (fun l => l.id ≠ c)) with hnv
    set pe2 := StoredEntry.mk (fun f loc =>
      if f = lf.fieldId ∧ loc = lf.locale then some newVal else pe.fields f loc) with hpe2
    set st2 : Store := fun i => if i = lf.entryId then some pe2 else store i with hst2
    have hrem : removeLinkFromEntry store updateFails lf.entryId lf.fieldId lf.locale c =
        (true, st2) := by
      simp only [removeLinkFromEntry, hstore, hfield, hupd, Bool.false_eq_true,
        if_false]
    have hproc : processMoves confirm updateFails [(c, lf)] [] store [] =
        .ok ([c], st2, [Notice.movedSuccess c]) := by
      simp [processMoves, hconf, hrem]
    have hres : onAddExisting items seed (some [c]) findLinks confirm store updateFails =
        ⟨items ++ [⟨seed, Link.mk c⟩], st2, [Notice.movedSuccess c], seed + 1⟩ := by
      simp [onAddExisting, hnew, hpart, hproc, newLocalItems]
    refine ⟨by simp [hres], pe2, by simp [hres, hst2], by simp [hpe2], ?_, ?_, ?_, ?_⟩
    · intro l hl
      have := List.of_mem_filter hl
      simpa using this
    · intro f2 loc2 hne2
      simp [hpe2, hne2]
    · intro eid hne2
      simp [hres, hst2, hne2]
    · simp [hres]
  · intro hupd
    have hrem : removeLinkFromEntry store updateFails lf.entryId lf.fieldId lf.locale c =
        (false, store) := by
      simp [removeLinkFromEntry, hstore, hfield, hupd]
    have hproc : processMoves confirm updateFails [(c, lf)] [] store [] =
        .ok ([], store, [Notice.moveFailed c]) := by
      simp [processMoves, hconf, hrem]
    have hres : onAddExisting items seed (some [c]) findLinks confirm store updateFails =
        ⟨items, store, [Notice.moveFailed c], seed⟩ := by
      simp [onAddExisting, hnew, hpart, hproc]
    exact ⟨by simp [hres], by simp [hres], by simp [hres]⟩

/-- Witness for C1: moving candidate c out of parent P succeeds and
appends c to an empty collection. -/
theorem onAddExisting_move_confirmed_witness :
    cexConfirmYes "c" = ConfirmRes.yes ∧
    ((onAddExisting [] 0 (some ["c"]) cexFindC cexConfirmYes cexStore
        noUpdateFails).items.map (fun it => it.link.id)) = ["c"] :=
  ⟨rfl,
   ((onAddExisting_move_confirmed [] 0 "c" ⟨"P", "f", "en"⟩ [] cexFindC cexConfirmYes
      cexStore noUpdateFails cexParent (FieldVal.many [⟨"c"⟩, ⟨"d"⟩]) (by decide)
      (by decide) rfl rfl (by decide)).1 rfl).1⟩

/-- Claim C4 counterexample: with candidate A conflict-free and
candidate B conflicting with a rejecting confirmation dialog, the whole
batch is aborted and nothing is appended (items stay empty), whereas
the same run with the dialog declined appends A — so a dialog failure
is not treated as a decline that lets the rest of the batch proceed. -/
theorem onAddExisting_dialog_error_cex :
    (onAddExisting [] 0 (some ["A", "B"]) cexFindLinks cexConfirmErr emptyStore
      noUpdateFails).items = [] ∧
    (onAddExisting [] 0 (some ["A", "B"]) cexFindLinks cexConfirmNo emptyStore
      noUpdateFails).items = [⟨0, ⟨"A"⟩⟩] := by
  constructor <;> rfl

/-- Claim C4 (amended): when the confirmation dialog of the first
conflicting candidate fails, the error reaches the function-level
catch: it is logged, the whole batch is aborted, no candidate
(straightforward or conflicting) is appended, the collection keeps its
previous value and the store is untouched. -/
theorem onAddExisting_dialog_error_aborts (items : List LocalItem) (seed : Nat)
    (selectedIds : List String) (findLinks : String → List LinkedFromEntry)
    (confirm : String → ConfirmRes) (store : Store) (updateFails : String → Bool)
    (adds0 : List String) (c : String) (lf : LinkedFromEntry)
    (mrest : List (String × LinkedFromEntry))
    (hpart : partitionCands findLinks (candidateIdsNotPresent items selectedIds) =
      (adds0, (c, lf) :: mrest))
    (hconf : confirm c = .err) :
    onAddExisting items seed (some selectedIds) findLinks confirm store updateFails =
      ⟨items, store, [Notice.loggedError], seed⟩ := by
  have hne : candidateIdsNotPresent items selectedIds ≠ [] := by
    intro h0
    rw [h0] at hpart
    simp [partitionCands] at hpart
  have hie : (candidateIdsNotPresent items selectedIds).isEmpty = false := by
    simp [List.isEmpty_iff, hne]
  have hproc : processMoves confirm updateFails ((c, lf) :: mrest) adds0 store [] =
      .error (store, []) := by
    simp [processMoves, hconf]
  simp [onAddExisting, hie, hpart, hproc]

/-- Witness for the amended C4: the concrete aborted run returns the
unchanged empty collection, the unchanged store and only the logged
error. -/
theorem onAddExisting_dialog_error_aborts_witness :
    cexConfirmErr "B" = ConfirmRes.err ∧
    onAddExisting [] 0 (some ["A", "B"]) cexFindLinks cexConfirmErr emptyStore
        noUpdateFails = ⟨[], emptyStore, [Notice.loggedError], 0⟩ :=
  ⟨rfl,
   onAddExisting_dialog_error_aborts [] 0 ["A", "B"] cexFindLinks cexConfirmErr
     emptyStore noUpdateFails ["A"] "B" ⟨"P", "f", "en"⟩ [] (by decide) rfl⟩

end CUR
